import Mathlib

/-!
Verification of the Lintwise concurrent review pipeline core against its
specification.  The Python source is shallowly embedded: pure computations
(`aggregator.py`, the retry loop, the rate-limiter arithmetic) become Lean
functions; the asynchronous orchestrator is modelled by explicit per-task
behaviour oracles; Python floats used only for ordered arithmetic
(confidence, delays, token budgets) are modelled by `ℚ`.
-/

namespace Lintwise

/-! ### Data model (`core/models.py`) -/

/-- `Severity` enum from `core/models.py`. -/
inductive Severity
  | critical
  | warning
  | suggestion
  | nitpick
deriving DecidableEq

/-- `ReviewCategory` enum from `core/models.py`. -/
inductive ReviewCategory
  | logic
  | readability
  | performance
  | security
deriving DecidableEq

/-- `RiskScore` enum from `core/models.py`. -/
inductive RiskScore
  | low
  | medium
  | high
  | critical
deriving DecidableEq

/-- `ReviewComment` model from `core/models.py`; `confidence` (a Python float
in `[0,1]` compared only by order) is modelled as `ℚ`. -/
structure ReviewComment where
  file : String
  line : Option Int := none
  end_line : Option Int := none
  severity : Severity
  category : ReviewCategory
  title : String
  body : String := ""
  suggestion : Option String := none
  confidence : ℚ := 4 / 5
  agent_name : String := ""
deriving DecidableEq

/-- `AgentMetrics` model from `core/models.py` (the per-task telemetry record,
the spec's `TaskOutcome` telemetry). -/
structure AgentMetrics where
  agent_name : String
  duration_ms : Int := 0
  prompt_tokens : Int := 0
  completion_tokens : Int := 0
  files_analyzed : Int := 0
  comments_produced : Int := 0
  error : Option String := none
deriving DecidableEq

/-! ### Constants (`core/constants.py`) -/

/-- `SEVERITY_WEIGHTS` dict from `core/constants.py`, keyed by
`Severity.value`; the `.get(..., 0)` default is unreachable because the four
enum values cover the dict. -/
def SEVERITY_WEIGHTS : Severity → ℕ
  | .critical => 10
  | .warning => 3
  | .suggestion => 1
  | .nitpick => 0

/-- `RISK_THRESHOLDS` dict from `core/constants.py`. -/
def RISK_THRESHOLDS (k : String) : ℕ :=
  if k = "low" then 5
  else if k = "medium" then 15
  else if k = "high" then 30
  else 0

/-! ### Aggregator (`orchestrator/aggregator.py`) -/

/-- Python `str.lower()`, modelled structurally over the character list
(ASCII case mapping, which agrees with Python on the strings at play). -/
def pyLower (s : String) : String := ⟨s.data.map Char.toLower⟩

/-- Python `str.strip()` with no argument: drop whitespace from both ends,
modelled structurally over the character list. -/
def pyStrip (s : String) : String :=
  ⟨((s.data.dropWhile Char.isWhitespace).reverse.dropWhile Char.isWhitespace).reverse⟩

/-- Python `str(line)` as used inside the f-string dedup key:
`None` renders as `"None"`, an int as its decimal form. -/
def lineStr : Option Int → String
  | none => "None"
  | some n => toString n

/-- The dedup key built by `deduplicate_comments`:
`f"{comment.file}:{comment.line}:{comment.title.lower().strip()}"`. -/
def dedupKey (c : ReviewComment) : String :=
  c.file ++ ":" ++ lineStr c.line ++ ":" ++ pyStrip (pyLower c.title)

/-- One step of the `seen` dict update in `deduplicate_comments`: a Python
dict preserves insertion order and replaces a value in place, so it is an
association list where a colliding key keeps its position (value replaced
only on strictly higher confidence) and a fresh key is appended. -/
def insertSeen : List (String × ReviewComment) → String → ReviewComment →
    List (String × ReviewComment)
  | [], k, c => [(k, c)]
  | (k0, c0) :: rest, k, c =>
    if k0 = k then
      if c.confidence > c0.confidence then (k0, c) :: rest
      else (k0, c0) :: rest
    else (k0, c0) :: insertSeen rest k c

/-- The `seen` dict of `deduplicate_comments` after the whole loop. -/
def dedupSeen (comments : List ReviewComment) : List (String × ReviewComment) :=
  comments.foldl (fun seen c => insertSeen seen (dedupKey c) c) []

/-- `deduplicate_comments` from `orchestrator/aggregator.py`:
`list(seen.values())` in insertion order. -/
def deduplicate_comments (comments : List ReviewComment) : List ReviewComment :=
  (dedupSeen comments).map Prod.snd

/-- The `severity_order` dict inside `rank_comments`; the `.get(..., 99)`
default is unreachable because the four enum values cover the dict. -/
def severityOrder : Severity → ℕ
  | .critical => 0
  | .warning => 1
  | .suggestion => 2
  | .nitpick => 3

/-- The total preorder realised by `rank_comments`' sort key
`(severity_order[c.severity], -c.confidence)` compared lexicographically. -/
def rankLE (a b : ReviewComment) : Prop :=
  severityOrder a.severity < severityOrder b.severity ∨
    (severityOrder a.severity = severityOrder b.severity ∧ b.confidence ≤ a.confidence)

instance : DecidableRel rankLE := fun a b => by
  unfold rankLE; infer_instance

instance : IsTotal ReviewComment rankLE where
  total a b := by
    unfold rankLE
    rcases Nat.lt_trichotomy (severityOrder a.severity) (severityOrder b.severity) with h | h | h
    · exact Or.inl (Or.inl h)
    · rcases le_total b.confidence a.confidence with hc | hc
      · exact Or.inl (Or.inr ⟨h, hc⟩)
      · exact Or.inr (Or.inr ⟨h.symm, hc⟩)
    · exact Or.inr (Or.inl h)

instance : IsTrans ReviewComment rankLE where
  trans a b c hab hbc := by
    unfold rankLE at *
    rcases hab with h1 | ⟨h1, h1c⟩ <;> rcases hbc with h2 | ⟨h2, h2c⟩
    · exact Or.inl (h1.trans h2)
    · exact Or.inl (h2 ▸ h1)
    · exact Or.inl (h1 ▸ h2)
    · exact Or.inr ⟨h1.trans h2, h2c.trans h1c⟩

/-- `rank_comments` from `orchestrator/aggregator.py`.  Python's `sorted` is
a stable sort by the key `(severity rank, -confidence)`; a stable sort with
respect to a total preorder is unique, so it is modelled by Mathlib's stable
`insertionSort` over `rankLE`. -/
def rank_comments (comments : List ReviewComment) : List ReviewComment :=
  comments.insertionSort rankLE

/-- The weighted severity total summed inside `compute_risk_score`. -/
def totalWeight (comments : List ReviewComment) : ℕ :=
  (comments.map (fun c => SEVERITY_WEIGHTS c.severity)).sum

/-- `compute_risk_score` from `orchestrator/aggregator.py`. -/
def compute_risk_score (comments : List ReviewComment) : RiskScore :=
  let total := totalWeight comments
  if total > RISK_THRESHOLDS "high" then .critical
  else if total > RISK_THRESHOLDS "medium" then .high
  else if total > RISK_THRESHOLDS "low" then .medium
  else .low

/-- `aggregate_comments` from `orchestrator/aggregator.py`:
deduplicate, then rank, then score the ranked list. -/
def aggregate_comments (comments : List ReviewComment) : List ReviewComment × RiskScore :=
  let deduped := deduplicate_comments comments
  let ranked := rank_comments deduped
  (ranked, compute_risk_score ranked)

/-! ### Spec-side formulations for the aggregator claims -/

/-- The risk mapping as the spec words it: sum ≤5 → low; ≤15 → medium;
≤30 → high; above 30 → critical. -/
def riskOfTotalSpec (n : ℕ) : RiskScore :=
  if n ≤ 5 then .low
  else if n ≤ 15 then .medium
  else if n ≤ 30 then .high
  else .critical

/-- The duplicate-resolution step as the spec words it: the later comment
wins only on strictly higher confidence. -/
def pickHigher (a c : ReviewComment) : ReviewComment :=
  if c.confidence > a.confidence then c else a

/-- The spec's description of which comment survives among all comments
sharing one dedup key, in encounter order: fold `pickHigher` from the first. -/
def specSurvivor : List ReviewComment → Option ReviewComment
  | [] => none
  | c :: cs => some (cs.foldl pickHigher c)

/-- Lookup in the ordered association list modelling the `seen` dict. -/
def findVal (k : String) : List (String × ReviewComment) → Option ReviewComment
  | [] => none
  | (k0, c) :: rest => if k0 = k then some c else findVal k rest

/-- `pickHigher` lifted to an optional current survivor. -/
def optPick (o : Option ReviewComment) (c : ReviewComment) : ReviewComment :=
  match o with
  | none => c
  | some a => pickHigher a c

/-- Fold the duplicate-resolution step over a list starting from an optional
current survivor. -/
def survivorFrom (o : Option ReviewComment) (cs : List ReviewComment) : Option ReviewComment :=
  cs.foldl (fun a c => some (optPick a c)) o

/-! ### Concrete comments used in scenario conjuncts and counterexamples -/

/-- Builder mirroring the test helper `_comment`. -/
def mkComment (file : String) (line : Option Int) (sev : Severity) (title : String)
    (conf : ℚ) : ReviewComment :=
  { file := file, line := line, severity := sev, category := .logic,
    title := title, body := "Description of the issue.", confidence := conf }

def nullCheckLow : ReviewComment := mkComment "a.py" (some 10) .warning "Null check" (mkRat 3 5)

def nullCheckHigh : ReviewComment := mkComment "a.py" (some 10) .warning "null check " (mkRat 9 10)

def scenCritical : ReviewComment := mkComment "x.py" (some 1) .critical "c" (mkRat 9 10)

def scenWarning : ReviewComment := mkComment "x.py" (some 2) .warning "w" (mkRat 9 10)

def scenSuggestion : ReviewComment := mkComment "x.py" (some 3) .suggestion "s" (mkRat 9 10)

def scenNitpick : ReviewComment := mkComment "x.py" (some 4) .nitpick "n" (mkRat 9 10)

/-- Key collision input: distinct (file, line, title) triples whose colon-joined
key strings coincide ("a" + ":1:" + "2:t" and "a:1" + ":2:" + "t"). -/
def collideA : ReviewComment := mkComment "a" (some 1) .warning "2:t" (mkRat 1 2)

def collideB : ReviewComment := mkComment "a:1" (some 2) .warning "t" (mkRat 1 2)

/-- A critical finding later shadowed (same dedup key) by a low-severity,
higher-confidence finding. -/
def dupCritical : ReviewComment := mkComment "a" (some 1) .critical "t" (mkRat 1 2)

def dupNitpick : ReviewComment := mkComment "a" (some 1) .nitpick "t" (mkRat 9 10)

def freshNitpick : ReviewComment := mkComment "b" (some 2) .nitpick "u" (mkRat 9 10)

/-- Numeric order of the four risk levels: low < medium < high < critical. -/
def riskLevelNat : RiskScore → ℕ
  | .low => 0
  | .medium => 1
  | .high => 2
  | .critical => 3

/-! ### Retry executor (`orchestrator/retry.py`) -/

/-- Outcome of one invocation of the wrapped async callable: a return value,
an exception of a retryable kind, or a non-retryable exception (exceptions
are carried as their message strings). -/
inductive CallOutcome (α : Type)
  | ok (a : α)
  | retryable (msg : String)
  | fatal (msg : String)

/-- Observable trace of one `retry_with_backoff` run: the final result (an
`Except` whose error side is a raised exception's message), the number of
invocations of the callable, and the backoff delays slept between
invocations, in order. -/
structure RetryTrace (α : Type) where
  result : Except String α
  calls : ℕ
  delays : List ℚ

/-- The `for attempt in range(max_retries + 1)` loop of `retry_with_backoff`:
the `attempt`-th invocation's outcome is `beh attempt`; a retryable failure at
`attempt ≥ max_retries` re-raises, otherwise the loop sleeps
`min(base_delay * 2 ^ attempt, max_delay)` and continues.  `fuel` counts the
loop iterations still allowed (`max_retries + 1 - attempt`); the
fuel-exhausted case is the function's own unreachable
`RuntimeError("Unexpected retry loop exit")` tail after the loop. -/
def retryLoop {α : Type} (beh : ℕ → CallOutcome α) (max_retries : ℕ)
    (base_delay max_delay : ℚ) : ℕ → ℕ → RetryTrace α
  | 0, _ => ⟨.error "Unexpected retry loop exit", 0, []⟩
  | fuel + 1, attempt =>
    match beh attempt with
    | .ok a => ⟨.ok a, 1, []⟩
    | .fatal e => ⟨.error e, 1, []⟩
    | .retryable e =>
      if attempt ≥ max_retries then ⟨.error e, 1, []⟩
      else
        let d := min (base_delay * 2 ^ attempt) max_delay
        let rest := retryLoop beh max_retries base_delay max_delay fuel (attempt + 1)
        ⟨rest.result, rest.calls + 1, d :: rest.delays⟩

/-- `retry_with_backoff` from `orchestrator/retry.py`. -/
def retry_with_backoff {α : Type} (beh : ℕ → CallOutcome α) (max_retries : ℕ)
    (base_delay max_delay : ℚ) : RetryTrace α :=
  retryLoop beh max_retries base_delay max_delay (max_retries + 1) 0

/-! ### Orchestrator (`orchestrator/pipeline.py` and `agents/base.py`) -/

/-- `FileChange` restricted to the field the orchestrator reads. -/
structure FileChange where
  filename : String
deriving DecidableEq

/-- A `ReviewAgent` as the orchestrator sees it: its `name` attribute. -/
structure Agent where
  name : String
deriving DecidableEq

/-- The behaviour of the body of one `ReviewAgent.analyze` call: either the
prompt build, upstream call and parse all complete with findings and token
counts, or some step raises an exception with message `msg`. -/
inductive AnalyzeBehavior
  | ok (comments : List ReviewComment) (duration_ms prompt_tokens completion_tokens : Int)
  | exc (msg : String) (duration_ms : Int)
deriving DecidableEq

/-- `ReviewAgent.analyze` from `agents/base.py`: on success returns the parsed
comments and full telemetry; the `except Exception` arm converts any in-body
exception into zero comments plus telemetry whose `error` is the exception's
message — `analyze` itself never raises. -/
def analyze (agentName : String) (b : AnalyzeBehavior) : List ReviewComment × AgentMetrics :=
  match b with
  | .ok cs dur pt ct =>
    (cs, { agent_name := agentName, duration_ms := dur, prompt_tokens := pt,
           completion_tokens := ct, files_analyzed := 1, comments_produced := cs.length })
  | .exc msg dur =>
    ([], { agent_name := agentName, duration_ms := dur, files_analyzed := 1,
           error := some msg })

/-- What one dispatched task does, as seen by `_run_agent_on_file`: the
`analyze` call either completes within the timeout or `asyncio.wait_for`
raises `TimeoutError`. -/
inductive TaskBehavior
  | completes (b : AnalyzeBehavior)
  | timesOut
deriving DecidableEq

/-- A task behaviour that does not produce findings: an in-`analyze`
exception or a timeout. -/
def TaskBehavior.isFailure : TaskBehavior → Bool
  | .completes (.ok _ _ _ _) => false
  | .completes (.exc _ _) => true
  | .timesOut => true

/-- `_run_agent_on_file` from `orchestrator/pipeline.py`: runs `analyze`
under `asyncio.wait_for`; on `TimeoutError` returns zero comments and a
timeout-error telemetry record instead of propagating. -/
def run_agent_on_file (agentName : String) (timeout : ℚ) (tb : TaskBehavior) :
    List ReviewComment × AgentMetrics :=
  match tb with
  | .completes b => analyze agentName b
  | .timesOut =>
    ([], { agent_name := agentName, files_analyzed := 1,
           error := some ("Timeout after " ++ toString timeout ++ "s") })

/-- The task matrix built by `run_review`: outer loop over files, inner loop
over agents. -/
def taskPairs (files : List FileChange) (agents : List Agent) : List (FileChange × Agent) :=
  files.flatMap (fun f => agents.map (fun a => (f, a)))

/-- The `asyncio.gather` of all dispatched tasks, in submission order; the
`i`-th built task behaves as `beh i`.  Each element is the
`(comments, metrics)` pair `_run_agent_on_file` guarantees. -/
def runTasks (timeout : ℚ) (beh : ℕ → TaskBehavior) :
    List (FileChange × Agent) → ℕ → List (List ReviewComment × AgentMetrics)
  | [], _ => []
  | p :: ps, i => run_agent_on_file p.2.name timeout (beh i) :: runTasks timeout beh ps (i + 1)

/-- `ReviewResult` restricted to the fields the claims are about. -/
structure ReviewResult where
  comments : List ReviewComment
  risk_score : RiskScore
  agent_metrics : List AgentMetrics
deriving DecidableEq

/-- `run_review` from `orchestrator/pipeline.py`: build the files × agents
task matrix, gather every task's `(comments, metrics)` pair, extend all
comments and all metrics in order, aggregate, and assemble the result. -/
def run_review (files : List FileChange) (agents : List Agent) (timeout : ℚ)
    (beh : ℕ → TaskBehavior) : ReviewResult :=
  let pairs := taskPairs files agents
  let results := runTasks timeout beh pairs 0
  let all_comments := (results.map Prod.fst).flatten
  let all_metrics := results.map Prod.snd
  let aggregated := aggregate_comments all_comments
  { comments := aggregated.1, risk_score := aggregated.2, agent_metrics := all_metrics }

/-! ### Rate limiter (`llm/rate_limiter.py`) -/

/-- The mutable bucket state of `TokenBucketRateLimiter` (the concurrency
semaphore is not part of the budget arithmetic these claims are about). -/
structure LimiterState where
  rpm : ℚ
  tpm : ℚ
  request_tokens : ℚ
  token_tokens : ℚ
deriving DecidableEq

/-- `TokenBucketRateLimiter.__init__`: both buckets start full. -/
def initLimiter (rpm tpm : ℕ) : LimiterState :=
  { rpm := rpm, tpm := tpm, request_tokens := rpm, token_tokens := tpm }

/-- `_refill`: continuous proportional refill capped at each capacity;
`elapsed` is the wall-clock time since the previous refill. -/
def refill (s : LimiterState) (elapsed : ℚ) : LimiterState :=
  { s with
    request_tokens := min s.rpm (s.request_tokens + elapsed * s.rpm / 60),
    token_tokens := min s.tpm (s.token_tokens + elapsed * s.tpm / 60) }

/-- The availability check inside `acquire`:
`self._request_tokens >= 1 and self._token_tokens >= estimated_tokens`. -/
def canProceed (s : LimiterState) (estimated_tokens : ℚ) : Bool :=
  decide (1 ≤ s.request_tokens) && decide (estimated_tokens ≤ s.token_tokens)

/-- The sleep computed by `acquire` when the check fails:
`max(0.1, min(5.0, estimated_tokens / (self._tpm / 60)))`. -/
def waitTime (s : LimiterState) (estimated_tokens : ℚ) : ℚ :=
  max (1 / 10) (min 5 (estimated_tokens / (s.tpm / 60)))

/-- The `while True` loop of `acquire`, observed along a trace of elapsed
times (one per iteration, the elapsed time `_refill` sees).  Returns the
post-consumption state if the check succeeded within the trace (`none` means
the loop is still running when the trace ends), together with the sleeps
performed, in order. -/
def acquireRun (estimated_tokens : ℚ) : LimiterState → List ℚ → Option LimiterState × List ℚ
  | _, [] => (none, [])
  | s, e :: es =>
    let s1 := refill s e
    if canProceed s1 estimated_tokens then
      (some { s1 with
                request_tokens := s1.request_tokens - 1,
                token_tokens := s1.token_tokens - estimated_tokens }, [])
    else
      let r := acquireRun estimated_tokens s1 es
      (r.1, waitTime s1 estimated_tokens :: r.2)

/-- Modelled from the spec: the back-off sleep §4.1 describes, proportional
to the token deficit — the tokens still missing from the bucket,
`estimated_tokens - token_tokens` — at the per-second refill rate, under the
same 0.1 s floor and 5 s ceiling. -/
def specDeficitWait (s : LimiterState) (estimated_tokens : ℚ) : ℚ :=
  max (1 / 10) (min 5 ((estimated_tokens - s.token_tokens) / (s.tpm / 60)))

/-! ### Aggregator lemmas -/

theorem survivorFrom_some (cs : List ReviewComment) :
    ∀ a : ReviewComment, survivorFrom (some a) cs = some (cs.foldl pickHigher a) := by
  induction cs with
  | nil => intro a; rfl
  | cons c cs ih =>
    intro a
    simpa [survivorFrom, optPick, List.foldl_cons] using ih (pickHigher a c)

theorem survivorFrom_none (cs : List ReviewComment) :
    survivorFrom none cs = specSurvivor cs := by
  cases cs with
  | nil => rfl
  | cons c cs =>
    simpa [survivorFrom, optPick, specSurvivor, List.foldl_cons] using survivorFrom_some cs c

theorem findVal_insertSeen (seen : List (String × ReviewComment)) (k k' : String)
    (c : ReviewComment) :
    findVal k (insertSeen seen k' c) =
      if k' = k then some (optPick (findVal k seen) c) else findVal k seen := by
  induction seen with
  | nil =>
    by_cases h : k' = k <;> simp [insertSeen, findVal, h, optPick]
  | cons p rest ih =>
    obtain ⟨k0, c0⟩ := p
    by_cases h0 : k0 = k'
    · subst h0
      by_cases hk : k0 = k
      · subst hk
        by_cases hc : c.confidence > c0.confidence <;>
          simp [insertSeen, findVal, hc, optPick, pickHigher]
      · by_cases hc : c.confidence > c0.confidence <;>
          simp [insertSeen, findVal, hc, hk, optPick]
    · by_cases hk : k0 = k
      · subst hk
        have h0' : ¬ k' = k0 := fun h => h0 h.symm
        simp [insertSeen, findVal, h0, h0']
      · simp [insertSeen, findVal, h0, hk, ih]

theorem findVal_foldl_insertSeen (l : List ReviewComment) :
    ∀ (seen : List (String × ReviewComment)) (k : String),
      findVal k (l.foldl (fun s c => insertSeen s (dedupKey c) c) seen) =
        survivorFrom (findVal k seen) (l.filter (fun c => decide (dedupKey c = k))) := by
  induction l with
  | nil => intro seen k; rfl
  | cons c l ih =>
    intro seen k
    rw [List.foldl_cons, ih]
    by_cases h : dedupKey c = k
    · simp [List.filter_cons, h, findVal_insertSeen, survivorFrom]
    · simp [List.filter_cons, h, findVal_insertSeen]

/-- The `seen` dict's entry for key `k` is exactly the spec-side survivor of
the comments with that key, in encounter order. -/
theorem findVal_dedupSeen (l : List ReviewComment) (k : String) :
    findVal k (dedupSeen l) = specSurvivor (l.filter (fun c => decide (dedupKey c = k))) := by
  rw [dedupSeen, findVal_foldl_insertSeen]
  exact survivorFrom_none _

theorem totalWeight_rank (l : List ReviewComment) :
    totalWeight (rank_comments l) = totalWeight l := by
  unfold totalWeight rank_comments
  exact ((List.perm_insertionSort rankLE l).map _).sum_eq

theorem compute_risk_score_eq_spec (l : List ReviewComment) :
    compute_risk_score l = riskOfTotalSpec (totalWeight l) := by
  unfold compute_risk_score riskOfTotalSpec
  have h30 : RISK_THRESHOLDS "high" = 30 := rfl
  have h15 : RISK_THRESHOLDS "medium" = 15 := rfl
  have h5 : RISK_THRESHOLDS "low" = 5 := rfl
  rw [h30, h15, h5]
  dsimp only
  split_ifs <;> first | rfl | omega

/-! ### Stability lemmas for `rank_comments` -/

theorem filter_orderedInsert_pos (p : ReviewComment → Bool) (a : ReviewComment)
    (hpa : p a = true) :
    ∀ m : List ReviewComment, (∀ b ∈ m, p b = true → rankLE a b) →
      (m.orderedInsert rankLE a).filter p = a :: m.filter p := by
  intro m
  induction m with
  | nil => intro _; simp [List.orderedInsert, hpa]
  | cons b m ih =>
    intro hall
    by_cases hr : rankLE a b
    · simp [List.orderedInsert, hr, List.filter_cons, hpa]
    · have hpb : p b = false := by
        cases hb : p b with
        | true => exact absurd (hall b (by simp) hb) hr
        | false => rfl
      have := ih (fun c hc hpc => hall c (by simp [hc]) hpc)
      simp [List.orderedInsert, hr, List.filter_cons, hpb, this]

theorem filter_orderedInsert_neg (p : ReviewComment → Bool) (a : ReviewComment)
    (hpa : p a = false) :
    ∀ m : List ReviewComment, (m.orderedInsert rankLE a).filter p = m.filter p := by
  intro m
  induction m with
  | nil => simp [List.orderedInsert, hpa]
  | cons b m ih =>
    by_cases hr : rankLE a b
    · simp [List.orderedInsert, hr, List.filter_cons, hpa]
    · cases hb : p b with
      | true => simp [List.orderedInsert, hr, List.filter_cons, hb, ih]
      | false => simp [List.orderedInsert, hr, List.filter_cons, hb, ih]

/-- A stable sort leaves the relative order of any class of pairwise
rank-equivalent elements unchanged. -/
theorem filter_insertionSort (p : ReviewComment → Bool)
    (hp : ∀ a b, p a = true → p b = true → rankLE a b) :
    ∀ l : List ReviewComment, (l.insertionSort rankLE).filter p = l.filter p := by
  intro l
  induction l with
  | nil => rfl
  | cons a l ih =>
    cases hpa : p a with
    | true =>
      have hall : ∀ b ∈ l.insertionSort rankLE, p b = true → rankLE a b :=
        fun b _ hpb => hp a b hpa hpb
      rw [List.insertionSort, filter_orderedInsert_pos p a hpa _ hall, ih,
        List.filter_cons, hpa]
      simp
    | false =>
      rw [List.insertionSort, filter_orderedInsert_neg p a hpa, ih, List.filter_cons, hpa]
      simp

/-! ### Lemmas for fresh-key appends in deduplication -/

theorem insertSeen_of_absent (k : String) (c : ReviewComment) :
    ∀ seen : List (String × ReviewComment), findVal k seen = none →
      insertSeen seen k c = seen ++ [(k, c)] := by
  intro seen
  induction seen with
  | nil => intro _; rfl
  | cons p rest ih =>
    obtain ⟨k0, c0⟩ := p
    intro h
    by_cases hk : k0 = k
    · rw [findVal, if_pos hk] at h
      exact absurd h (by simp)
    · rw [findVal, if_neg hk] at h
      simp [insertSeen, hk, ih h]

theorem dedupSeen_append_fresh (l : List ReviewComment) (f : ReviewComment)
    (h : ∀ c ∈ l, dedupKey c ≠ dedupKey f) :
    dedupSeen (l ++ [f]) = dedupSeen l ++ [(dedupKey f, f)] := by
  have habs : findVal (dedupKey f) (dedupSeen l) = none := by
    rw [findVal_dedupSeen]
    have : l.filter (fun c => decide (dedupKey c = dedupKey f)) = [] := by
      rw [List.filter_eq_nil_iff]
      intro c hc
      simp [h c hc]
    rw [this]
    rfl
  show (l ++ [f]).foldl (fun s c => insertSeen s (dedupKey c) c) [] = _
  rw [List.foldl_append]
  exact insertSeen_of_absent (dedupKey f) f _ habs

theorem deduplicate_append_fresh (l : List ReviewComment) (f : ReviewComment)
    (h : ∀ c ∈ l, dedupKey c ≠ dedupKey f) :
    deduplicate_comments (l ++ [f]) = deduplicate_comments l ++ [f] := by
  unfold deduplicate_comments
  rw [dedupSeen_append_fresh l f h, List.map_append]
  rfl

theorem totalWeight_append (l1 l2 : List ReviewComment) :
    totalWeight (l1 ++ l2) = totalWeight l1 + totalWeight l2 := by
  simp [totalWeight]

theorem riskOfTotalSpec_mono {m n : ℕ} (h : m ≤ n) :
    riskLevelNat (riskOfTotalSpec m) ≤ riskLevelNat (riskOfTotalSpec n) := by
  unfold riskOfTotalSpec
  split_ifs <;> simp [riskLevelNat] <;> omega

theorem aggregate_risk_eq_spec (l : List ReviewComment) :
    (aggregate_comments l).2 = riskOfTotalSpec (totalWeight (deduplicate_comments l)) := by
  show compute_risk_score (rank_comments (deduplicate_comments l)) = _
  rw [compute_risk_score_eq_spec, totalWeight_rank]

/-! ### Claims C3–C6 and C8 -/

/-- C3: the risk score is the severity-weight sum (critical 10, warning 3,
suggestion 1, nitpick 0) of the post-dedup findings mapped through strict
greater-than cutoffs 5/15/30 — equivalently sum ≤5 low, ≤15 medium,
≤30 high, above critical; one finding of each severity sums to 14 and
aggregates to risk medium. -/
theorem claimC3_risk_mapping :
    (∀ l : List ReviewComment, compute_risk_score l = riskOfTotalSpec (totalWeight l)) ∧
    (∀ l : List ReviewComment,
      (aggregate_comments l).2 = riskOfTotalSpec (totalWeight (deduplicate_comments l))) ∧
    totalWeight [scenCritical, scenWarning, scenSuggestion, scenNitpick] = 14 ∧
    (aggregate_comments [scenCritical, scenWarning, scenSuggestion, scenNitpick]).2 =
      RiskScore.medium :=
  ⟨compute_risk_score_eq_spec, aggregate_risk_eq_spec, by decide, by decide⟩

/-- C4: among the comments sharing one dedup key (same file, same line value
including absent, equal lowercased-and-trimmed title), the survivor in the
`seen` dict is the fold of "later wins only on strictly higher confidence"
over them in encounter order; the spec's two-finding scenario keeps the
confidence-0.9 finding. -/
theorem claimC4_dedup_survivor :
    (∀ (l : List ReviewComment) (k : String),
      findVal k (dedupSeen l) =
        specSurvivor (l.filter (fun c => decide (dedupKey c = k)))) ∧
    deduplicate_comments [nullCheckLow, nullCheckHigh] = [nullCheckHigh] :=
  ⟨findVal_dedupSeen, by decide⟩

/-- C5 (failing-input evaluation): two findings with different files,
different lines and different normalized titles are nevertheless merged,
because the colon-joined key strings collide
("a" ++ ":1:" ++ "2:t" = "a:1" ++ ":2:" ++ "t"). -/
theorem claimC5_key_collision_merges :
    collideA.file ≠ collideB.file ∧
    collideA.line ≠ collideB.line ∧
    pyStrip (pyLower collideA.title) ≠ pyStrip (pyLower collideB.title) ∧
    dedupKey collideA = dedupKey collideB ∧
    deduplicate_comments [collideA, collideB] = [collideA] := by
  refine ⟨by decide, by decide, by decide, by decide, by decide⟩

/-- C6: ranking permutes the findings, orders them with severity rank
non-decreasing and, within equal severity, confidence non-increasing, and
keeps the input order of findings equal in both severity and confidence
(stability); the ranked list of the aggregation is the ranking of the
post-dedup findings. -/
theorem claimC6_rank_stable_sort :
    (∀ l : List ReviewComment, (rank_comments l).Perm l) ∧
    (∀ l : List ReviewComment, (rank_comments l).Pairwise (fun a b =>
      severityOrder a.severity ≤ severityOrder b.severity ∧
        (severityOrder a.severity = severityOrder b.severity →
          b.confidence ≤ a.confidence))) ∧
    (∀ (l : List ReviewComment) (s : Severity) (q : ℚ),
      (rank_comments l).filter (fun c => decide (c.severity = s ∧ c.confidence = q)) =
        l.filter (fun c => decide (c.severity = s ∧ c.confidence = q))) ∧
    (∀ l : List ReviewComment,
      (aggregate_comments l).1 = rank_comments (deduplicate_comments l)) := by
  refine ⟨fun l => List.perm_insertionSort rankLE l, fun l => ?_, fun l s q => ?_, fun l => rfl⟩
  · have hs := List.sorted_insertionSort rankLE l
    refine hs.imp ?_
    intro a b hab
    rcases hab with h | ⟨h, hc⟩
    · exact ⟨h.le, fun heq => absurd (heq ▸ h) (lt_irrefl _)⟩
    · exact ⟨h.le, fun _ => hc⟩
  · refine filter_insertionSort _ ?_ l
    intro a b ha hb
    have ha' : a.severity = s ∧ a.confidence = q := of_decide_eq_true ha
    have hb' : b.severity = s ∧ b.confidence = q := of_decide_eq_true hb
    right
    constructor
    · rw [ha'.1, hb'.1]
    · rw [ha'.2, hb'.2]

/-- C8 counterexample: appending a finding can lower the aggregated risk
level.  A critical finding (weight 10, risk medium) is replaced under
deduplication by a same-key nitpick of higher confidence (weight 0, risk
low). -/
theorem claimC8_counterexample :
    ¬ riskLevelNat (aggregate_comments [dupCritical]).2 ≤
        riskLevelNat (aggregate_comments [dupCritical, dupNitpick]).2 := by
  decide

/-- C8 as amended: appending a finding whose dedup key does not collide with
any existing finding never decreases the aggregated risk level. -/
theorem claimC8_monotonic_fresh_key (l : List ReviewComment) (f : ReviewComment)
    (h : ∀ c ∈ l, dedupKey c ≠ dedupKey f) :
    riskLevelNat (aggregate_comments l).2 ≤
      riskLevelNat (aggregate_comments (l ++ [f])).2 := by
  rw [aggregate_risk_eq_spec, aggregate_risk_eq_spec, deduplicate_append_fresh l f h,
    totalWeight_append]
  exact riskOfTotalSpec_mono (Nat.le_add_right _ _)

/-- Witness for the amended C8 at a concrete input. -/
theorem claimC8_monotonic_fresh_key_witness :
    riskLevelNat (aggregate_comments [dupCritical]).2 ≤
      riskLevelNat (aggregate_comments ([dupCritical] ++ [freshNitpick])).2 :=
  claimC8_monotonic_fresh_key [dupCritical] freshNitpick (by decide)

/-! ### Orchestrator lemmas and claims C1, C2 -/

theorem runTasks_length (t : ℚ) (beh : ℕ → TaskBehavior) :
    ∀ (ps : List (FileChange × Agent)) (i : ℕ), (runTasks t beh ps i).length = ps.length := by
  intro ps
  induction ps with
  | nil => intro i; rfl
  | cons p ps ih => intro i; simp [runTasks, ih]

theorem taskPairs_length (files : List FileChange) (agents : List Agent) :
    (taskPairs files agents).length = files.length * agents.length := by
  unfold taskPairs
  induction files with
  | nil => simp
  | cons f fs ih => simp [ih, Nat.succ_mul, Nat.add_comm]

theorem run_agent_on_file_failure (name : String) (t : ℚ) (tb : TaskBehavior)
    (h : tb.isFailure = true) :
    (run_agent_on_file name t tb).1 = [] ∧ (run_agent_on_file name t tb).2.error.isSome := by
  cases tb with
  | timesOut => exact ⟨rfl, rfl⟩
  | completes b =>
    cases b with
    | ok cs dur pt ct => simp [TaskBehavior.isFailure] at h
    | exc msg dur => exact ⟨rfl, rfl⟩

theorem runTasks_all_failed (t : ℚ) (beh : ℕ → TaskBehavior) :
    ∀ (ps : List (FileChange × Agent)) (i : ℕ),
      (∀ j, i ≤ j → j < i + ps.length → (beh j).isFailure = true) →
      ((runTasks t beh ps i).map Prod.fst).flatten = [] ∧
        ∀ m ∈ (runTasks t beh ps i).map Prod.snd, m.error.isSome := by
  intro ps
  induction ps with
  | nil => intro i _; exact ⟨rfl, by simp [runTasks]⟩
  | cons p ps ih =>
    intro i h
    have hi : (beh i).isFailure = true := h i le_rfl (by simp)
    have hf := run_agent_on_file_failure p.2.name t (beh i) hi
    have ihh := ih (i + 1) (fun j hj1 hj2 => h j (by omega) (by simp only [List.length_cons]; omega))
    refine ⟨?_, ?_⟩
    · simp [runTasks, hf.1, ihh.1]
    · intro m hm
      simp only [runTasks, List.map_cons, List.mem_cons] at hm
      rcases hm with hm | hm
      · exact hm ▸ hf.2
      · exact ihh.2 m hm

/-- C1: `run_review` returns one telemetry record per dispatched
(analyzer, file) task — exactly N×M for N files and M analyzers — whatever
each task's behaviour (success, in-analyze exception, or timeout). -/
theorem claimC1_task_outcome_count (files : List FileChange) (agents : List Agent)
    (timeout : ℚ) (beh : ℕ → TaskBehavior) :
    (run_review files agents timeout beh).agent_metrics.length =
      files.length * agents.length := by
  show ((runTasks timeout beh (taskPairs files agents) 0).map Prod.snd).length = _
  rw [List.length_map, runTasks_length, taskPairs_length]

/-- C2: per-task exceptions are captured into that task's telemetry
(`analyze` returns error telemetry instead of raising; `_run_agent_on_file`
does the same for timeouts), and a fully failed batch still yields a result
with zero findings, risk low, and an error recorded in every telemetry
entry — `run_review` is a total function into `ReviewResult`. -/
theorem claimC2_fault_containment :
    (∀ (name msg : String) (dur : Int),
      analyze name (.exc msg dur) =
        ([], { agent_name := name, duration_ms := dur, files_analyzed := 1,
               error := some msg })) ∧
    (∀ (name : String) (t : ℚ) (tb : TaskBehavior), tb.isFailure = true →
      (run_agent_on_file name t tb).1 = [] ∧
        (run_agent_on_file name t tb).2.error.isSome) ∧
    (∀ (files : List FileChange) (agents : List Agent) (timeout : ℚ)
        (beh : ℕ → TaskBehavior),
      (∀ j < (taskPairs files agents).length, (beh j).isFailure = true) →
      (run_review files agents timeout beh).comments = [] ∧
        (run_review files agents timeout beh).risk_score = RiskScore.low ∧
        ∀ m ∈ (run_review files agents timeout beh).agent_metrics, m.error.isSome) := by
  refine ⟨fun name msg dur => rfl, run_agent_on_file_failure, ?_⟩
  intro files agents timeout beh h
  have hall := runTasks_all_failed timeout beh (taskPairs files agents) 0
    (fun j _ hj2 => h j (by omega))
  refine ⟨?_, ?_, hall.2⟩
  · show (aggregate_comments
      ((runTasks timeout beh (taskPairs files agents) 0).map Prod.fst).flatten).1 = []
    rw [hall.1]
    rfl
  · show (aggregate_comments
      ((runTasks timeout beh (taskPairs files agents) 0).map Prod.fst).flatten).2 = _
    rw [hall.1]
    rfl

/-- Witness for C2: a 1×1 batch whose only task times out. -/
theorem claimC2_fault_containment_witness :
    ((run_agent_on_file "security_agent" 60 .timesOut).1 = [] ∧
      (run_agent_on_file "security_agent" 60 .timesOut).2.error.isSome) ∧
    (run_review [⟨"app.py"⟩] [⟨"security_agent"⟩] 60 (fun _ => .timesOut)).comments = [] ∧
      (run_review [⟨"app.py"⟩] [⟨"security_agent"⟩] 60
        (fun _ => .timesOut)).risk_score = RiskScore.low ∧
      ∀ m ∈ (run_review [⟨"app.py"⟩] [⟨"security_agent"⟩] 60
        (fun _ => .timesOut)).agent_metrics, m.error.isSome :=
  ⟨claimC2_fault_containment.2.1 "security_agent" 60 .timesOut rfl,
    claimC2_fault_containment.2.2 [⟨"app.py"⟩] [⟨"security_agent"⟩] 60
      (fun _ => .timesOut) (fun _ _ => rfl)⟩

/-! ### Retry executor lemmas and claim C7 -/

theorem retryLoop_step {α : Type} (beh : ℕ → CallOutcome α) (m : ℕ) (b d : ℚ)
    (attempt fuel : ℕ) (e : String) (he : beh attempt = .retryable e)
    (hlt : attempt < m) :
    retryLoop beh m b d (fuel + 1) attempt =
      { result := (retryLoop beh m b d fuel (attempt + 1)).result,
        calls := (retryLoop beh m b d fuel (attempt + 1)).calls + 1,
        delays := min (b * 2 ^ attempt) d ::
          (retryLoop beh m b d fuel (attempt + 1)).delays } := by
  simp only [retryLoop, he]
  rw [if_neg (by omega)]

theorem retryLoop_skip {α : Type} (beh : ℕ → CallOutcome α) (m : ℕ) (b d : ℚ) :
    ∀ (k attempt fuel : ℕ),
      (∀ i, i < k → ∃ e, beh (attempt + i) = .retryable e) →
      (∀ i, i < k → attempt + i < m) →
      retryLoop beh m b d (fuel + k) attempt =
        { result := (retryLoop beh m b d fuel (attempt + k)).result,
          calls := (retryLoop beh m b d fuel (attempt + k)).calls + k,
          delays := (List.range k).map (fun i => min (b * 2 ^ (attempt + i)) d) ++
            (retryLoop beh m b d fuel (attempt + k)).delays } := by
  intro k
  induction k with
  | zero => intro attempt fuel _ _; simp
  | succ k ih =>
    intro attempt fuel hre hlt
    obtain ⟨e, he⟩ := hre 0 k.succ_pos
    rw [Nat.add_zero] at he
    have hstep := retryLoop_step beh m b d attempt (fuel + k) e he
      (by have := hlt 0 k.succ_pos; omega)
    rw [show fuel + (k + 1) = (fuel + k) + 1 by omega, hstep,
      ih (attempt + 1) fuel
        (fun i hi => by
          have := hre (i + 1) (by omega)
          rwa [show attempt + (i + 1) = attempt + 1 + i by omega] at this)
        (fun i hi => by
          have := hlt (i + 1) (by omega)
          omega)]
    have hidx : attempt + 1 + k = attempt + (k + 1) := by omega
    simp only [RetryTrace.mk.injEq]
    refine ⟨by rw [hidx], by rw [hidx]; omega, ?_⟩
    rw [hidx, List.range_succ_eq_map, List.map_cons, List.map_map]
    simp only [Nat.add_zero, List.cons_append]
    congr 1
    congr 1
    refine List.map_congr_left ?_
    intro i _
    simp only [Function.comp_apply]
    rw [show attempt + 1 + i = attempt + (i + 1) by omega]

/-- C7: with `max_retries = m`, base delay `b`, max delay `d`: (1) `k`
retryable failures then a success (`k < m`) return the success after exactly
`k+1` invocations, sleeping `min(b·2^attempt, d)` before each retry and
nothing before the first invocation; (2) an always-retryable failure raises
the last failure after exactly `m+1` invocations; (3) a non-retryable
failure at any attempt `j ≤ m` is re-raised at once, with no further delay;
(4) `m = 0` means a single attempt whose failure propagates immediately with
no delay. -/
theorem claimC7_retry_behaviour {α : Type} :
    (∀ (beh : ℕ → CallOutcome α) (m : ℕ) (b d : ℚ) (k : ℕ) (a : α),
      k < m → (∀ i, i < k → ∃ e, beh i = .retryable e) → beh k = .ok a →
      retry_with_backoff beh m b d =
        { result := .ok a, calls := k + 1,
          delays := (List.range k).map (fun i => min (b * 2 ^ i) d) }) ∧
    (∀ (beh : ℕ → CallOutcome α) (m : ℕ) (b d : ℚ) (es : ℕ → String),
      (∀ i, beh i = .retryable (es i)) →
      retry_with_backoff beh m b d =
        { result := .error (es m), calls := m + 1,
          delays := (List.range m).map (fun i => min (b * 2 ^ i) d) }) ∧
    (∀ (beh : ℕ → CallOutcome α) (m : ℕ) (b d : ℚ) (j : ℕ) (e : String),
      j ≤ m → (∀ i, i < j → ∃ e', beh i = .retryable e') → beh j = .fatal e →
      retry_with_backoff beh m b d =
        { result := .error e, calls := j + 1,
          delays := (List.range j).map (fun i => min (b * 2 ^ i) d) }) ∧
    (∀ (beh : ℕ → CallOutcome α) (b d : ℚ) (e : String),
      beh 0 = .retryable e ∨ beh 0 = .fatal e →
      retry_with_backoff beh 0 b d =
        { result := .error e, calls := 1, delays := [] }) := by
  refine ⟨?_, ?_, ?_, ?_⟩
  · intro beh m b d k a hkm hre hok
    unfold retry_with_backoff
    rw [show m + 1 = (m + 1 - k) + k by omega,
      retryLoop_skip beh m b d k 0 (m + 1 - k)
        (fun i hi => by simpa using hre i hi) (fun i hi => by omega)]
    obtain ⟨f, hf⟩ : ∃ f, m + 1 - k = f + 1 := ⟨m - k, by omega⟩
    rw [hf]
    simp only [Nat.zero_add, retryLoop, hok]
    simp only [RetryTrace.mk.injEq]
    refine ⟨?_, ?_, ?_⟩ <;> first | trivial | omega | simp
  · intro beh m b d es hre
    unfold retry_with_backoff
    rw [show m + 1 = 1 + m by omega,
      retryLoop_skip beh m b d m 0 1
        (fun i _ => ⟨es i, by simpa using hre i⟩) (fun i hi => by omega)]
    simp only [Nat.zero_add, retryLoop, hre m]
    rw [if_pos le_rfl]
    simp only [RetryTrace.mk.injEq]
    refine ⟨?_, ?_, ?_⟩ <;> first | trivial | omega | simp
  · intro beh m b d j e hjm hre hfat
    unfold retry_with_backoff
    rw [show m + 1 = (m + 1 - j) + j by omega,
      retryLoop_skip beh m b d j 0 (m + 1 - j)
        (fun i hi => by simpa using hre i hi) (fun i hi => by omega)]
    obtain ⟨f, hf⟩ : ∃ f, m + 1 - j = f + 1 := ⟨m - j, by omega⟩
    rw [hf]
    simp only [Nat.zero_add, retryLoop, hfat]
    simp only [RetryTrace.mk.injEq]
    refine ⟨?_, ?_, ?_⟩ <;> first | trivial | omega | simp
  · intro beh b d e h
    rcases h with h | h <;>
      · unfold retry_with_backoff
        simp [retryLoop, h]

/-- Behaviour for the C7 witness: two retryable rate-limit errors, then a
success. -/
def behTwoFail : ℕ → CallOutcome ℕ :=
  fun i => if i < 2 then .retryable "rate limited" else .ok 42

/-- Witness for C7 at `max_retries = 3`, base delay 1, max delay 30. -/
theorem claimC7_retry_behaviour_witness :
    retry_with_backoff behTwoFail 3 1 30 =
      { result := .ok 42, calls := 2 + 1,
        delays := (List.range 2).map (fun i => min (1 * 2 ^ i) 30) } :=
  claimC7_retry_behaviour.1 behTwoFail 3 1 30 2 42 (by omega)
    (fun i hi => ⟨"rate limited", by simp [behTwoFail, hi]⟩)
    (by simp [behTwoFail])

/-! ### Rate limiter lemmas and claims C9, C10 -/

theorem refill_tpm (s : LimiterState) (e : ℚ) : (refill s e).tpm = s.tpm := rfl

theorem refill_token_le (s : LimiterState) (e : ℚ) :
    (refill s e).token_tokens ≤ s.tpm :=
  min_le_left _ _

/-- C9 counterexample: at two insufficient-budget states with token deficits
500 and 1 (estimated 1000, per-second refill rate 1000), the acquire loop
sleeps 1 s in both — and no deficit-proportional sleep, whatever its
proportionality constant, can be 1 s at both deficits under the 0.1/5
clamps.  In particular the modelled deficit-based sleep of the spec differs
from the code's sleep at the first state. -/
theorem claimC9_counterexample :
    (acquireRun 1000 ⟨60, 60000, 0, 500⟩ [0]).2 = [1] ∧
    (acquireRun 1000 ⟨60, 60000, 0, 999⟩ [0]).2 = [1] ∧
    specDeficitWait ⟨60, 60000, 0, 500⟩ 1000 ≠
      waitTime ⟨60, 60000, 0, 500⟩ 1000 ∧
    ¬ ∃ c : ℚ, max (1 / 10) (min 5 (c * 500)) = 1 ∧
        max (1 / 10) (min 5 (c * 1)) = 1 := by
  refine ⟨?_, ?_, ?_, ?_⟩
  · norm_num [acquireRun, refill, canProceed, waitTime]
  · norm_num [acquireRun, refill, canProceed, waitTime]
  · norm_num [specDeficitWait, waitTime]
  · rintro ⟨c, h1, h2⟩
    have hc : c = 1 / 500 := by
      rcases le_total (min 5 (c * 500)) (1 / 10) with h | h
      · rw [max_eq_left h] at h1
        norm_num at h1
      · rw [max_eq_right h] at h1
        rcases le_total (5 : ℚ) (c * 500) with h' | h'
        · rw [min_eq_left h'] at h1
          norm_num at h1
        · rw [min_eq_right h'] at h1
          linarith
    subst hc
    norm_num [min_def, max_def] at h2

/-- C9 as amended: every sleep performed by the acquire loop equals
`max(0.1, min(5, estimated_tokens / (tpm / 60)))` — proportional to the full
estimated token requirement at the per-second refill rate, independent of
the bucket's current deficit — and in particular lies within the 0.1 s floor
and 5 s ceiling. -/
theorem claimC9_sleep_clamped_estimate (est : ℚ) (tr : List ℚ) :
    ∀ s : LimiterState, ∀ w ∈ (acquireRun est s tr).2,
      w = max (1 / 10) (min 5 (est / (s.tpm / 60))) ∧ 1 / 10 ≤ w ∧ w ≤ 5 := by
  induction tr with
  | nil => intro s w hw; simp [acquireRun] at hw
  | cons e es ih =>
    intro s w hw
    by_cases hc : canProceed (refill s e) est
    · simp [acquireRun, hc] at hw
    · simp only [acquireRun, Bool.not_eq_true] at hw
      rw [if_neg (by simp [hc])] at hw
      rcases List.mem_cons.mp hw with hw | hw
      · subst hw
        refine ⟨rfl, le_max_left _ _, ?_⟩
        exact max_le (by norm_num) (min_le_left _ _)
      · have := ih (refill s e) w hw
        rwa [refill_tpm] at this

/-- Witness for the amended C9: a state with an empty request bucket sleeps
exactly the clamped estimate-based interval. -/
theorem claimC9_sleep_clamped_estimate_witness :
    (1 : ℚ) = max (1 / 10) (min 5 (1000 / ((60000 : ℚ) / 60))) ∧
      (1 : ℚ) ≥ 1 / 10 ∧ (1 : ℚ) ≤ 5 := by
  have h := claimC9_sleep_clamped_estimate 1000 [0] ⟨60, 60000, 0, 500⟩ 1
    (by norm_num [acquireRun, refill, canProceed, waitTime])
  exact ⟨h.1, h.2.1, h.2.2⟩

/-- C10: `acquire` can only terminate when the estimate fits the
tokens-per-minute capacity: the bucket starts at the capacity, refills never
push it above the capacity, so an estimate above `tpm` fails the
availability check on every iteration and the loop never exits, whatever the
elapsed-time trace. -/
theorem claimC10_acquire_nontermination :
    (∀ rpm tpm : ℕ, (initLimiter rpm tpm).token_tokens ≤ (initLimiter rpm tpm).tpm) ∧
    ∀ (est : ℚ) (s : LimiterState) (tr : List ℚ),
      s.tpm < est → s.token_tokens ≤ s.tpm →
      (acquireRun est s tr).1 = none := by
  refine ⟨fun rpm tpm => le_refl _, ?_⟩
  intro est s tr
  induction tr generalizing s with
  | nil => intro _ _; rfl
  | cons e es ih =>
    intro hlt htok
    have h1 : (refill s e).token_tokens ≤ s.tpm := refill_token_le s e
    have hcp : canProceed (refill s e) est = false := by
      unfold canProceed
      have hno : ¬ est ≤ (refill s e).token_tokens :=
        fun hle => absurd (hle.trans h1) (not_le.mpr hlt)
      simp [hno]
    simp only [acquireRun]
    rw [if_neg (by simp [hcp])]
    exact ih (refill s e) (by rw [refill_tpm]; exact hlt)
      (by rw [refill_tpm]; exact h1)

/-- Witness for C10: estimated 101 tokens against a 100-token-per-minute
bucket never acquires along a sample trace. -/
theorem claimC10_acquire_nontermination_witness :
    (acquireRun 101 (initLimiter 60 100) [1, 2, 3]).1 = none :=
  claimC10_acquire_nontermination.2 101 (initLimiter 60 100) [1, 2, 3]
    (by norm_num [initLimiter])
    (claimC10_acquire_nontermination.1 60 100)

end Lintwise
